import Mathlib

/-!
# Verification of the AutoMTL differentiable architecture-search core

This file gives a shallow embedding in Lean 4 of the parts of the AutoMTL
repository that the specification talks about, and proves (or refutes)
the specification's claims against that embedding.

Embedded source locations:
* `src/utils/utils.py` : `DecayScheduler` (global auxiliary skip weight);
* `src/nas/automtl.py` : `DartsLayerChoice.forward`, the
  `parameters` / `named_parameters` overrides, the weight-sharing loops in
  `DartsTrainer.__init__`, `_compute_virtual_model`, `_compute_hessian`,
  `_restore_weights`, `_unrolled_backward`;
* `src/nas/aux_losses.py` : `JSDivLoss`;
* `src/trainer/trainer.py` : `AbstractTrainer._check_nan` and the model-step
  ordering of `DartsTrainer._train_epoch`;
* `src/nas/choicer.py` : `Mutable.__new__` / `LayerChoice.create_fixed_module`;
* `src/blocks/ops.py` : `DropPath`.

Tensors are modelled as lists of real numbers (`Vec`); in-place mutation of
parameters is modelled by explicit state passing.  Python `zip` over two lists
is `List.zipWith` (both truncate at the shorter argument), Python
dictionaries are association lists.  Gradients of the externally supplied
differentiable losses are modelled as oracle functions from the current model
parameters to gradient values, which is exactly how the trainer consumes
them.
-/

open scoped Classical

namespace AutoMTL

/-! ## Tensors -/

/-- A (flattened) tensor of real numbers. -/
abbrev Vec := List ℝ

/-- Pointwise addition of tensors (Python elementwise `+` over `zip`ped params). -/
def vecAdd (v w : Vec) : Vec := List.zipWith (fun a b => a + b) v w

/-- Pointwise subtraction of tensors. -/
def vecSub (v w : Vec) : Vec := List.zipWith (fun a b => a - b) v w

/-- Scalar multiplication of a tensor. -/
def vecSmul (c : ℝ) (v : Vec) : Vec := v.map (fun a => c * a)

/-- Division of a tensor by a scalar. -/
noncomputable def vecDiv (v : Vec) (c : ℝ) : Vec := v.map (fun a => a / c)

/-- `torch.dot` of two tensors. -/
def vecDot (v w : Vec) : ℝ := (List.zipWith (fun a b => a * b) v w).sum

/-- `tensor.norm()` : the Euclidean norm of the flattened tensor. -/
noncomputable def l2norm (v : Vec) : ℝ := Real.sqrt ((v.map (fun a => a ^ 2)).sum)

/-- Python `sum(list_of_tensors)`: starts from scalar `0`, which broadcasts,
so the sum of an empty list is the scalar `0` (modelled as `[]`) and otherwise
it is the pointwise sum. -/
def sumVecs : List Vec → Vec
  | [] => []
  | v :: vs => vs.foldl vecAdd v

/-! ## DecayScheduler (`src/utils/utils.py`, lines 189-213)

`weight` is recomputed on every `step` purely from `base_weight`,
`decay_type`, the stored `steps` (the constructor stores `steps - 1`) and the
step counter `cnt`.  Python integers are modelled as `ℤ`, Python float
division as real division. -/

structure DecayScheduler where
  base_weight : ℝ
  cnt : ℤ
  decay_type : String
  weight : ℝ
  steps : ℤ

/-- `DecayScheduler()` constructor with its Python default arguments
(`base_weight=1.0, steps=15, decay_type='linear'`); the constructor stores
`steps - 1`.  The module-level global `auxiliary_skip_weight` of
`src/nas/automtl.py` is created this way. -/
def DecayScheduler.new : DecayScheduler :=
  { base_weight := 1, cnt := 0, decay_type := "linear", weight := 1, steps := 15 - 1 }

/-- `DecayScheduler.reset`: re-initialises counter and weight and stores
`steps - 1`; the decay type is left unchanged. -/
def DecayScheduler.reset (s : DecayScheduler) (base_weight : ℝ) (steps : ℤ) :
    DecayScheduler :=
  { s with base_weight := base_weight, cnt := 0, weight := base_weight,
           steps := steps - 1 }

/-- The weight value assigned by `DecayScheduler.step` as a pure function of
the scheduler's fields and the (already incremented) counter. -/
noncomputable def decayWeight (base : ℝ) (decay_type : String) (steps : ℤ) (cnt : ℤ) : ℝ :=
  if decay_type = "cosine" then
    base * (1 + Real.cos (Real.pi * cnt / steps)) / 2
  else if decay_type = "slow_cosine" then
    base * Real.cos ((Real.pi / 2) * cnt / steps)
  else if decay_type = "linear" then
    base * (steps - cnt) / steps
  else
    base

/-- `DecayScheduler.step`: increments `cnt` and recomputes `weight`. -/
noncomputable def DecayScheduler.step (s : DecayScheduler) : DecayScheduler :=
  { s with cnt := s.cnt + 1,
           weight := decayWeight s.base_weight s.decay_type s.steps (s.cnt + 1) }

/-- Iterated `DecayScheduler.step`. -/
noncomputable def DecayScheduler.stepN : ℕ → DecayScheduler → DecayScheduler
  | 0, s => s
  | n + 1, s => DecayScheduler.stepN n s.step

/-- `auxiliary_skip_weight.cnt = ...` : direct assignment to the counter field
(performed by `DartsTrainer._resume_checkpoint`, line 230). -/
def DecayScheduler.setCnt (s : DecayScheduler) (c : ℤ) : DecayScheduler :=
  { s with cnt := c }

/-! ## DropPath (`src/blocks/ops.py`, lines 9-27) and softmax

`DropPath.forward` is stochastic in training mode: the Bernoulli sample is
supplied as an explicit `mask` oracle argument.  Inputs and outputs of
candidate operations are modelled as single real numbers (a batch of one
scalar feature), which is all the mixture algebra depends on. -/

structure DropPathM where
  p : ℝ
  training : Bool

/-- `DropPath.forward`: in training mode with positive `p`, scale by
`1/(1-p)` and multiply by the sampled 0/1 mask; otherwise the identity. -/
noncomputable def DropPathM.forward (dp : DropPathM) (mask : ℝ) (x : ℝ) : ℝ :=
  if dp.training = true ∧ dp.p > 0 then x / (1 - dp.p) * mask else x

/-- `torch.softmax` over the last (only) dimension of a vector. -/
noncomputable def softmax (v : Vec) : Vec :=
  v.map (fun a => Real.exp a / ((v.map Real.exp).sum))

/-! ## DartsLayerChoice (`src/nas/automtl.py`, lines 21-54) -/

/-- The operation-choice mixture wrapper: an ordered dict of named candidate
operations, the architecture weight `alpha` (one entry per candidate by
construction), and the `DropPath` submodule.  `auxiliary_op` is
`nn.Identity()`. -/
structure DartsLayerChoiceM where
  name : String
  op_choices : List (String × (ℝ → ℝ))
  alpha : Vec
  drop_path : DropPathM

/-- `DartsLayerChoice.forward`: stack the drop-pathed candidate outputs on the
same input, weight them by `softmax(alpha)` (broadcast), sum over the stack
dimension, and add the auxiliary skip pathway
`auxiliary_skip_weight.weight * Identity(input)`.  `skipWeight` is the
current weight of the global `auxiliary_skip_weight` scheduler and `masks`
are the drop-path Bernoulli samples, one per candidate. -/
noncomputable def DartsLayerChoiceM.forward (m : DartsLayerChoiceM) (skipWeight : ℝ)
    (masks : List ℝ) (x : ℝ) : ℝ :=
  let op_results := List.zipWith
    (fun (op : String × (ℝ → ℝ)) mask => m.drop_path.forward mask (op.2 x))
    m.op_choices masks
  (List.zipWith (fun r w => r * w) op_results (softmax m.alpha)).sum
    + skipWeight * x

/-! ## The `parameters` / `named_parameters` overrides
(`src/nas/automtl.py`, lines 41-51 and 76-86)

`nn.Module.named_parameters` yields the module's direct parameters first
(here only `alpha`, under its unprefixed name `"alpha"`), then the
parameters of each child with dotted name prefixes.  The children of
`DartsLayerChoice` are `op_choices` (a `ModuleDict` of the candidates),
`drop_path` (parameterless) and `auxiliary_op` (`nn.Identity`,
parameterless); the children of `DartsExpertChoice` are `op_choices` and the
parameterless `auxiliary_skip`.  Parameter objects are modelled by opaque
ids (`ℕ`). -/

/-- The recursive `named_parameters` contribution of the `op_choices`
children: every candidate parameter name is prefixed by
`"op_choices." ++ candidate name ++ "."`. -/
def flattenOpParams (ops : List (String × List (String × ℕ))) : List (String × ℕ) :=
  ops.flatMap (fun op => op.2.map (fun q => ("op_choices." ++ op.1 ++ "." ++ q.1, q.2)))

/-- `super().named_parameters()` on a `DartsLayerChoice` or
`DartsExpertChoice`: the direct parameter `alpha` first, then the candidate
parameters. -/
def superNamedParameters (alphaId : ℕ) (ops : List (String × List (String × ℕ))) :
    List (String × ℕ) :=
  ("alpha", alphaId) :: flattenOpParams ops

/-- The overridden `named_parameters` of both wrappers: yield
`super().named_parameters()` but skip the entry literally named `"alpha"`. -/
def dartsNamedParameters (alphaId : ℕ) (ops : List (String × List (String × ℕ))) :
    List (String × ℕ) :=
  (superNamedParameters alphaId ops).filter (fun q => q.1 ≠ "alpha")

/-- The overridden `parameters` of both wrappers: the values of the
overridden `named_parameters`. -/
def dartsParameters (alphaId : ℕ) (ops : List (String × List (String × ℕ))) : List ℕ :=
  (dartsNamedParameters alphaId ops).map (fun q => q.2)

/-! ## Architecture-weight sharing at trainer construction
(`src/nas/automtl.py`, lines 163-178)

`alpha` tensors are modelled as references: an object identity `id` plus the
tensor `size`, so that Python object identity (`is`) is equality of `id`. -/

structure AlphaRef where
  id : ℕ
  size : ℕ
deriving DecidableEq

/-- A collected Choice wrapper as seen by the sharing loops: its `name`
(the label) and its `alpha` reference. -/
structure NasModuleR where
  name : String
  alpha : AlphaRef
deriving DecidableEq

/-- Python `dict` assignment `d[k] = v`: overwrite in place if the key is
present (keeping its position), else append. -/
def dictInsert (l : List (String × AlphaRef)) (k : String) (v : AlphaRef) :
    List (String × AlphaRef) :=
  match l with
  | [] => [(k, v)]
  | (k', v') :: rest =>
    if k' = k then (k, v) :: rest else (k', v') :: dictInsert rest k v

/-- The `ctrl_params` loop of `DartsTrainer.__init__` (lines 170-176): for
each collected operation-level module, if its label is already bound, assert
equal sizes (an `AssertionError` aborts construction) and rebind the module's
`alpha` to the first-encountered tensor; otherwise record its tensor.
Returns the rewritten module list and the label-to-tensor dict whose values
feed `ctrl_optim`. -/
def ctrlLoop : List NasModuleR → List (String × AlphaRef) →
    Except String (List NasModuleR × List (String × AlphaRef))
  | [], acc => .ok ([], acc)
  | m :: ms, acc =>
    match acc.lookup m.name with
    | some a =>
      if m.alpha.size = a.size then
        match ctrlLoop ms acc with
        | .ok (ms', acc') => .ok ({ m with alpha := a } :: ms', acc')
        | .error e => .error e
      else
        .error "Size of parameters with the same label should be same"
    | none =>
      match ctrlLoop ms (acc ++ [(m.name, m.alpha)]) with
      | .ok (ms', acc') => .ok (m :: ms', acc')
      | .error e => .error e

/-- The `expert_params` loop of `DartsTrainer.__init__` (lines 163-165): a
plain dict fill `expert_params[m.name] = m.alpha` — later same-labeled
modules overwrite the stored tensor; the modules themselves are never
reassigned, so the loop returns them unchanged together with the dict whose
values feed `expert_optim`. -/
def expertConstruct (ms : List NasModuleR) :
    List NasModuleR × List (String × AlphaRef) :=
  (ms, ms.foldl (fun acc m => dictInsert acc m.name m.alpha) [])

/-! ## The virtual SGD step (`src/nas/automtl.py`, lines 376-385) -/

/-- The SGD-with-momentum update value computed in the body of the
`_compute_virtual_model` loop: `w - lr * (momentum * m + g + weight_decay * w)`. -/
def virtualStepValue (w g m lr momentum weight_decay : ℝ) : ℝ :=
  w - lr * (momentum * m + g + weight_decay * w)

/-- `DartsTrainer._compute_virtual_model`: the loop body evaluates
`virtualStepValue` and rebinds the Python local `w` to it; no in-place
operation or attribute assignment ever writes the value back into a parameter
tensor, so the model's parameter list is returned unchanged.  `grads` is the
training-loss gradient (one entry per parameter) and `mbuf` the per-parameter
momentum buffer read from `self.optimizer.state` (defaulting to `0.`). -/
def computeVirtualModel (params grads mbuf : Vec) (lr momentum weight_decay : ℝ) :
    Vec :=
  let _discarded := List.zipWith
    (fun w gm => virtualStepValue w gm.1 gm.2 lr momentum weight_decay)
    params (grads.zip mbuf)
  params

/-- Modelled from the spec: the virtual step of §4.4 step 2 as the
specification describes it — every parameter tensor is updated to
`w' = w - lr * (momentum * m + g + weight_decay * w)`.  (The observed source
never applies this update; this definition exists to compare the code against
the claimed behaviour.) -/
def specVirtualStep (params grads mbuf : Vec) (lr momentum weight_decay : ℝ) : Vec :=
  List.zipWith
    (fun w gm => virtualStepValue w gm.1 gm.2 lr momentum weight_decay)
    params (grads.zip mbuf)

/-! ## Hessian-vector product and unrolled backward
(`src/nas/automtl.py`, lines 345-419)

The training and validation losses are external differentiable collaborators;
their gradients are supplied as oracle functions of the current model
parameters (the architecture parameters are constant during one call). -/

/-- `DartsTrainer._restore_weights`: `param.copy_(backup)` for each
`zip`ped pair — each surviving position of the current parameter list is
overwritten by the backup value (like `zip`, the copy stops at the shorter
list). -/
def restoreWeights (backup current : Vec) : Vec :=
  List.zipWith (fun b _ => b) backup current

/-- Result of `_compute_hessian`: the per-alpha Hessian estimates, whether
the small-norm diagnostic fired, and the model parameters as the routine
leaves them (it does not restore after its perturbation loop). -/
structure HessianOut where
  hessian : List Vec
  warned : Prop
  paramsAfter : Vec

/-- `DartsTrainer._compute_hessian`: restore the backup parameters, compute
`eps = 0.01 / ||dw||`, warn (but continue) if the norm is below `1e-8`, then
perturb the parameters in place by `+eps*dw` followed by `-2*eps*dw`,
evaluating the training-loss gradient w.r.t. the collected `alpha`s
(`dalphaTrain`, an oracle in the model parameters) after each perturbation,
and return `(dalpha_pos - dalpha_neg) / (2*eps)`. -/
noncomputable def computeHessian (backup : Vec) (dw : Vec)
    (dalphaTrain : Vec → List Vec) (current : Vec) : HessianOut :=
  let p0 := restoreWeights backup current
  let norm := l2norm dw
  let eps := 0.01 / norm
  let warned := norm < 1e-8
  let pPos := vecAdd p0 (vecSmul eps dw)
  let dalphaPos := dalphaTrain pPos
  let pNeg := vecAdd pPos (vecSmul (-2 * eps) dw)
  let dalphaNeg := dalphaTrain pNeg
  let hessian := List.zipWith (fun p n => vecDiv (vecSub p n) (2 * eps)) dalphaPos dalphaNeg
  { hessian := hessian, warned := warned, paramsAfter := pNeg }

/-- Result of `_unrolled_backward`: the model parameters on return, the
architecture parameter values (the routine never changes them), the gradient
written into each collected `alpha.grad`, and the diagnostic flag. -/
structure UnrolledOut where
  params : Vec
  alphas : List Vec
  alphaGrads : List Vec
  warned : Prop

/-- `DartsTrainer._unrolled_backward`: snapshot the parameters, run the
virtual step on the training batch, take the joint validation gradient
`(d_model, d_ctrl)` at the resulting parameters (`gradVal` is the oracle for
`torch.autograd.grad` of the validation loss), compute the finite-difference
Hessian, write `d - lr * h` into each alpha's gradient, and restore the
snapshot.  No optimizer step happens inside. -/
noncomputable def unrolledBackward (params0 : Vec) (alphas0 : List Vec) (mbuf : Vec)
    (lr momentum weight_decay : ℝ) (gradTrainModel : Vec → Vec)
    (gradVal : Vec → Vec × List Vec) (dalphaTrain : Vec → List Vec) : UnrolledOut :=
  let backup := params0
  let p1 := computeVirtualModel params0 (gradTrainModel params0) mbuf lr momentum weight_decay
  let dmodel := (gradVal p1).1
  let dctrl := (gradVal p1).2
  let h := computeHessian backup dmodel dalphaTrain p1
  let grads := List.zipWith (fun d hv => vecSub d (vecSmul lr hv)) dctrl h.hessian
  { params := restoreWeights backup h.paramsAfter,
    alphas := alphas0,
    alphaGrads := grads,
    warned := h.warned }

/-! ## JSDivLoss (`src/nas/aux_losses.py`) -/

/-- `torch.log2`. -/
noncomputable def log2r (x : ℝ) : ℝ := Real.log x / Real.log 2

/-- The `entropy` helper of `JSDivLoss`: `torch.dot(x, torch.log2(x))`.
Note this is the *negated* Shannon entropy (in bits). -/
noncomputable def entropyCode (x : Vec) : ℝ := vecDot x (x.map log2r)

/-- The Shannon entropy in bits, `-(sum of p * log2 p)`, as the
specification's words use the term. -/
noncomputable def shannonEntropy (x : Vec) : ℝ := -entropyCode x

/-- `JSDivLoss.forward` at a given current `weight`: softmax each task's
alpha, average the distributions, and return
`weight * (entropy(means) - (sum of entropy(prob) / n))` with `entropy` the
code's helper above. -/
noncomputable def jsdForward (weight : ℝ) (alphas : List Vec) : ℝ :=
  let n : ℝ := alphas.length
  let probs := alphas.map softmax
  let means := vecDiv (sumVecs probs) n
  let loss := entropyCode means - ((probs.map (fun p => entropyCode p / n)).sum)
  weight * loss

/-- Modelled from the spec (§4.5): the Jensen–Shannon divergence of the
per-task softmax distributions — the Shannon entropy of the mean distribution
minus the mean of the per-task Shannon entropies — times the current weight. -/
noncomputable def specJSDivLoss (weight : ℝ) (alphas : List Vec) : ℝ :=
  let n : ℝ := alphas.length
  let probs := alphas.map softmax
  let means := vecDiv (sumVecs probs) n
  weight * (shannonEntropy means - ((probs.map (fun p => shannonEntropy p / n)).sum))

/-- The mutable weight state of `JSDivLoss`: `weight` and the per-step
decrement `weight_step = init_weight / max_epochs` fixed at construction.
`DartsTrainer.__init__` constructs it with
`max_epochs = search_epochs - 5` (five being the hard-coded curriculum
epoch). -/
structure JSDivState where
  weight : ℝ
  weight_step : ℝ

/-- `JSDivLoss.__init__` with a non-`None` `max_epochs`. -/
noncomputable def JSDivState.new (init_weight : ℝ) (max_epochs : ℝ) : JSDivState :=
  { weight := init_weight, weight_step := init_weight / max_epochs }

/-- `JSDivLoss.step`: `self.weight -= self.weight_step`. -/
def JSDivState.step (s : JSDivState) : JSDivState :=
  { s with weight := s.weight - s.weight_step }

/-- Iterated `JSDivLoss.step`. -/
def JSDivState.stepN : ℕ → JSDivState → JSDivState
  | 0, s => s
  | n + 1, s => JSDivState.stepN n s.step

/-! ## Non-finite-loss check (`src/trainer/trainer.py`, lines 142-144, and
the model step of `DartsTrainer._train_epoch`, lines 291-312)

A scalar loss value is classified as a finite real, NaN or a signed
infinity; this is the only aspect of floating point the claim depends on. -/

inductive LossVal where
  | fin (x : ℝ)
  | nan
  | posInf
  | negInf

/-- `torch.isnan` on a scalar loss. -/
def torchIsnan : LossVal → Bool
  | .nan => true
  | _ => false

/-- `AbstractTrainer._check_nan`: raise `ValueError('Training loss is nan.')`
exactly when `torch.isnan(loss)` holds. -/
def checkNan (loss : LossVal) : Except String Unit :=
  if torchIsnan loss then .error "Training loss is nan." else .ok ()

/-- Observable actions of the phase-2 model step, in program order. -/
inductive StepEvent where
  | backward
  | clipModelGrads
  | clipExpertGrads
  | optimizerStep
  | expertOptimizerStep
deriving DecidableEq

/-- The tail of phase 2 of `DartsTrainer._train_epoch` (lines 304-312),
starting from the already-computed combined loss: `_check_nan`, then
`loss.backward()`, optional gradient clipping, `optimizer.step()` and — from
the curriculum epoch on — `expert_optim.step()`.  An uncaught `ValueError`
aborts the step before any later event. -/
def modelStepTail (loss : LossVal) (epoch_idx : ℕ) (clip : Bool) :
    Except String (List StepEvent) :=
  match checkNan loss with
  | .error e => .error e
  | .ok _ =>
    .ok ([StepEvent.backward]
      ++ (if clip then [StepEvent.clipModelGrads, StepEvent.clipExpertGrads] else [])
      ++ [StepEvent.optimizerStep]
      ++ (if 5 ≤ epoch_idx then [StepEvent.expertOptimizerStep] else []))

/-! ## Fixed-architecture construction (`src/nas/choicer.py`, lines 14-57) -/

/-- An already-built candidate module: its forward function and the (names
of the) parameters it owns. -/
structure PyModule where
  forward : ℝ → ℝ
  params : List String

/-- The result of constructing a `LayerChoice`: either the selected candidate
module itself (returned by `create_fixed_module` from `__new__`, in which
case `__init__` never runs), or the full searchable node holding every
candidate. -/
inductive BuiltLayerChoice where
  | fixedSel (m : PyModule)
  | mixture (candidates : List (String × PyModule)) (label : String)

/-- `LayerChoice(candidates, label)` under a fixed-architecture context
stack (top of stack = innermost `with fixed_arch(...)` binding):
`Mutable.__new__` calls `create_fixed_module`; an empty context stack raises
`NoContextError`, which is caught and leads to normal mixture construction;
with a context present, a missing label or a missing candidate name raises
`KeyError` (uncaught, fatal); otherwise the selected candidate module itself
is returned — the decision is taken here, at construction time. -/
def layerChoiceNew (fixedStack : List (List (String × String)))
    (candidates : List (String × PyModule)) (label : String) :
    Except String BuiltLayerChoice :=
  match fixedStack.head? with
  | none => .ok (.mixture candidates label)
  | some ctx =>
    match ctx.lookup label with
    | none => .error "KeyError: fixed context label not found"
    | some chosen =>
      match candidates.lookup chosen with
      | none => .error "KeyError: candidate not found"
      | some m => .ok (.fixedSel m)

/-- The forward behaviour of a constructed node.  A mixture `LayerChoice` is
never run directly (its docstring: `Do not run foward in this module`); its
branch returns `0` as an unused placeholder. -/
def BuiltLayerChoice.run : BuiltLayerChoice → ℝ → ℝ
  | .fixedSel m => m.forward
  | .mixture _ _ => fun _ => 0

/-- The parameters allocated inside a constructed node. -/
def BuiltLayerChoice.allParams : BuiltLayerChoice → List String
  | .fixedSel m => m.params
  | .mixture cs _ => cs.flatMap (fun c => c.2.params)

/-! ## Helper lemmas on tensors -/

@[simp] theorem vecAdd_nil_left (w : Vec) : vecAdd [] w = [] := rfl

@[simp] theorem vecAdd_nil_right (v : Vec) : vecAdd v [] = [] := by
  cases v <;> rfl

@[simp] theorem vecAdd_cons (a b : ℝ) (v w : Vec) :
    vecAdd (a :: v) (b :: w) = (a + b) :: vecAdd v w := rfl

@[simp] theorem vecSmul_nil (c : ℝ) : vecSmul c [] = [] := rfl

@[simp] theorem vecSmul_cons (c a : ℝ) (v : Vec) :
    vecSmul c (a :: v) = c * a :: vecSmul c v := rfl

@[simp] theorem vecAdd_length (v w : Vec) :
    (vecAdd v w).length = min v.length w.length := by
  simp [vecAdd]

@[simp] theorem vecSmul_length (c : ℝ) (v : Vec) :
    (vecSmul c v).length = v.length := by
  simp [vecSmul]

/-- Two successive in-place perturbations along the same direction collapse
into one perturbation by the sum of the two step sizes. -/
theorem vecAdd_vecSmul_vecSmul (v w : Vec) (a b : ℝ) :
    vecAdd (vecAdd v (vecSmul a w)) (vecSmul b w) = vecAdd v (vecSmul (a + b) w) := by
  induction v generalizing w with
  | nil => simp
  | cons x xs ih =>
    cases w with
    | nil => simp
    | cons y ys =>
      simp only [vecSmul_cons, vecAdd_cons, List.cons.injEq]
      exact ⟨by ring, ih ys⟩

/-- Restoring a backup over a current parameter list of at least the same
length yields exactly the backup. -/
theorem restoreWeights_eq_backup (backup current : Vec)
    (h : backup.length ≤ current.length) : restoreWeights backup current = backup := by
  induction backup generalizing current with
  | nil => rfl
  | cons b bs ih =>
    cases current with
    | nil => simp at h
    | cons c cs =>
      show b :: restoreWeights bs cs = b :: bs
      rw [ih cs (by simpa using h)]

/-! ## Helper lemmas on `DecayScheduler` -/

@[simp] theorem DecayScheduler.step_base (s : DecayScheduler) :
    s.step.base_weight = s.base_weight := rfl

@[simp] theorem DecayScheduler.step_type (s : DecayScheduler) :
    s.step.decay_type = s.decay_type := rfl

@[simp] theorem DecayScheduler.step_steps (s : DecayScheduler) :
    s.step.steps = s.steps := rfl

@[simp] theorem DecayScheduler.step_cnt (s : DecayScheduler) :
    s.step.cnt = s.cnt + 1 := rfl

@[simp] theorem DecayScheduler.stepN_base (n : ℕ) (s : DecayScheduler) :
    (DecayScheduler.stepN n s).base_weight = s.base_weight := by
  induction n generalizing s with
  | zero => rfl
  | succ n ih => simp [DecayScheduler.stepN, ih]

@[simp] theorem DecayScheduler.stepN_type (n : ℕ) (s : DecayScheduler) :
    (DecayScheduler.stepN n s).decay_type = s.decay_type := by
  induction n generalizing s with
  | zero => rfl
  | succ n ih => simp [DecayScheduler.stepN, ih]

@[simp] theorem DecayScheduler.stepN_steps (n : ℕ) (s : DecayScheduler) :
    (DecayScheduler.stepN n s).steps = s.steps := by
  induction n generalizing s with
  | zero => rfl
  | succ n ih => simp [DecayScheduler.stepN, ih]

@[simp] theorem DecayScheduler.stepN_cnt (n : ℕ) (s : DecayScheduler) :
    (DecayScheduler.stepN n s).cnt = s.cnt + n := by
  induction n generalizing s with
  | zero => simp [DecayScheduler.stepN]
  | succ n ih =>
    simp [DecayScheduler.stepN, ih]
    ring

/-- After at least one `step`, the weight is the pure decay formula applied
at the current counter value. -/
theorem DecayScheduler.stepN_weight (n : ℕ) (hn : 1 ≤ n) (s : DecayScheduler) :
    (DecayScheduler.stepN n s).weight
      = decayWeight s.base_weight s.decay_type s.steps (s.cnt + n) := by
  induction n generalizing s with
  | zero => omega
  | succ n ih =>
    rcases Nat.eq_zero_or_pos n with h0 | hpos
    · subst h0
      simp [DecayScheduler.stepN, DecayScheduler.step]
    · rw [DecayScheduler.stepN, ih hpos]
      simp only [DecayScheduler.step_base, DecayScheduler.step_type,
        DecayScheduler.step_steps, DecayScheduler.step_cnt]
      congr 1
      push_cast
      ring

/-! ## Claim C8 -/

/-- **C8.** For every `k ≥ 1` and every decay type, advancing the decay
scheduler `k` times after a reset yields exactly the same weight as:
resetting, advancing `k - 1` times, checkpointing (the trainer checkpoint
stores no scheduler state), restoring by setting the internal counter to
`k - 1` from the resumed epoch index (the `_resume_checkpoint` assignment
`auxiliary_skip_weight.cnt = start_epoch - 1`), and advancing once more. -/
theorem C8_decay_scheduler_resume_equiv (s : DecayScheduler) (base : ℝ) (steps : ℤ)
    (k : ℕ) (hk : 1 ≤ k) :
    (DecayScheduler.stepN k (s.reset base steps)).weight
      = ((DecayScheduler.setCnt
            (DecayScheduler.stepN (k - 1) (s.reset base steps)) ((k : ℤ) - 1)).step).weight := by
  rw [DecayScheduler.stepN_weight k hk]
  simp only [DecayScheduler.step, DecayScheduler.setCnt, DecayScheduler.stepN_base,
    DecayScheduler.stepN_type, DecayScheduler.stepN_steps]
  have : ((k : ℤ) - 1) + 1 = (s.reset base steps).cnt + (k : ℤ) := by
    simp [DecayScheduler.reset]
  rw [this]

/-- Witness for C8 at `k = 3`, the default-constructed scheduler and a
concrete reset. -/
theorem C8_decay_scheduler_resume_equiv_witness :
    (DecayScheduler.stepN 3 (DecayScheduler.new.reset 1 10)).weight
      = ((DecayScheduler.setCnt
            (DecayScheduler.stepN 2 (DecayScheduler.new.reset 1 10)) 2).step).weight :=
  C8_decay_scheduler_resume_equiv DecayScheduler.new 1 10 3 (by decide)

/-! ## Helper lemmas for `ofFn`-shaped mixtures -/

theorem zipWith_ofFn {α β γ : Type} (n : ℕ) (f : Fin n → α) (g : Fin n → β)
    (k : α → β → γ) :
    List.zipWith k (List.ofFn f) (List.ofFn g) = List.ofFn (fun i => k (f i) (g i)) := by
  induction n with
  | zero => rfl
  | succ n ih => simp [List.ofFn_succ, ih]

/-- `softmax` on an `ofFn`-shaped vector. -/
theorem softmax_ofFn (n : ℕ) (a : Fin n → ℝ) :
    softmax (List.ofFn a)
      = List.ofFn (fun i => Real.exp (a i) / ∑ j, Real.exp (a j)) := by
  simp [softmax, List.map_ofFn, Function.comp_def, List.sum_ofFn]

/-! ## Claim C2 -/

/-- **C2 (counterexample).** A single-candidate Operation Choice node with the
identity candidate, `alpha = [0]`, drop path disabled, evaluated at input `1`
while the global skip-weight scheduler holds its fresh-reset weight:
the forward output is `2`, whereas the softmax-weighted sum of the candidate
evaluations on the same input (the claim's asserted value) is `1` — the
additive auxiliary skip pathway contributes a further term, refuting the
claim that no other term contributes. -/
theorem C2_mixture_counterexample :
    DartsLayerChoiceM.forward
        ⟨"l", [("op", fun x => x)], [0], ⟨0, false⟩⟩
        ((DecayScheduler.new.reset 1 10).weight) [1] 1 = 2
    ∧ (List.zipWith (fun r w => r * w)
        (([("op", fun (x : ℝ) => x)]).map (fun op => op.2 1))
        (softmax [0])).sum = 1
    ∧ (2 : ℝ) ≠ 1 := by
  refine ⟨?_, ?_, by norm_num⟩
  · simp [DartsLayerChoiceM.forward, softmax, DropPathM.forward, DecayScheduler.reset,
      DecayScheduler.new, Real.exp_zero]
    norm_num
  · simp [softmax, Real.exp_zero]

/-- **C2 (amended).** For every Operation Choice node with `n` candidates and
every input, the forward output equals the softmax(alpha)-weighted sum over
exactly the `n` drop-pathed candidate evaluations on that same input *plus*
the auxiliary skip pathway `skipWeight * input`; when drop path is inactive
(eval mode or ratio `0`) the drop-path wrapper disappears and the output is
the plain softmax mixture of the `n` candidate evaluations plus the skip
term. -/
theorem C2_mixture_amended (n : ℕ) (name : String) (ops : Fin n → String × (ℝ → ℝ))
    (a : Fin n → ℝ) (dp : DropPathM) (skip : ℝ) (masks : Fin n → ℝ) (x : ℝ) :
    DartsLayerChoiceM.forward ⟨name, List.ofFn ops, List.ofFn a, dp⟩ skip
        (List.ofFn masks) x
      = (∑ i, (Real.exp (a i) / ∑ j, Real.exp (a j)) * dp.forward (masks i) ((ops i).2 x))
          + skip * x
    ∧ (¬(dp.training = true ∧ 0 < dp.p) →
        DartsLayerChoiceM.forward ⟨name, List.ofFn ops, List.ofFn a, dp⟩ skip
            (List.ofFn masks) x
          = (∑ i, (Real.exp (a i) / ∑ j, Real.exp (a j)) * ((ops i).2 x)) + skip * x) := by
  have hmain : DartsLayerChoiceM.forward ⟨name, List.ofFn ops, List.ofFn a, dp⟩ skip
      (List.ofFn masks) x
      = (∑ i, (Real.exp (a i) / ∑ j, Real.exp (a j)) * dp.forward (masks i) ((ops i).2 x))
          + skip * x := by
    unfold DartsLayerChoiceM.forward
    rw [softmax_ofFn]
    rw [zipWith_ofFn n ops masks (fun op mask => dp.forward mask (op.2 x))]
    dsimp only
    rw [zipWith_ofFn n _ _ (fun r w => r * w)]
    rw [List.sum_ofFn]
    congr 1
    exact Finset.sum_congr rfl (fun i _ => mul_comm _ _)
  refine ⟨hmain, fun hoff => ?_⟩
  rw [hmain]
  congr 1
  refine Finset.sum_congr rfl (fun i _ => ?_)
  rw [DropPathM.forward, if_neg hoff]

/-- Witness for the conditional clause of the amended C2 at a concrete
two-candidate node in eval mode. -/
theorem C2_mixture_amended_witness :
    DartsLayerChoiceM.forward
        ⟨"l", List.ofFn ![("id", fun (x : ℝ) => x), ("double", fun x => 2 * x)],
         List.ofFn ![(0 : ℝ), 0], ⟨1 / 2, false⟩⟩ 1 (List.ofFn ![1, 1]) 1
      = (∑ i : Fin 2,
          (Real.exp ((![(0 : ℝ), 0]) i) / ∑ j : Fin 2, Real.exp ((![(0 : ℝ), 0]) j))
            * ((![("id", fun (x : ℝ) => x), ("double", fun x => 2 * x)]) i).2 1) + 1 * 1 :=
  (C2_mixture_amended 2 "l" ![("id", fun (x : ℝ) => x), ("double", fun x => 2 * x)]
    ![(0 : ℝ), 0] ⟨1 / 2, false⟩ 1 ![1, 1] 1).2 (by simp)

/-! ## Claim C10 -/

/-- Every name produced by the `op_choices` children carries the
`"op_choices."` prefix and therefore is never the direct name `"alpha"`. -/
theorem flattenOpParams_name_ne_alpha (ops : List (String × List (String × ℕ))) :
    ∀ q ∈ flattenOpParams ops, q.1 ≠ "alpha" := by
  intro q hq
  simp only [flattenOpParams, List.mem_flatMap, List.mem_map] at hq
  obtain ⟨op, _, ⟨p, _, rfl⟩⟩ := hq
  intro h
  have hlen := congrArg String.length h
  rw [String.length_append, String.length_append, String.length_append] at hlen
  have h1 : String.length "op_choices." = 11 := rfl
  have h2 : String.length "." = 1 := rfl
  have h3 : String.length "alpha" = 5 := rfl
  omega

/-- **C10.** Calling the overridden `named_parameters` (or `parameters`)
directly on a `DartsLayerChoice` or `DartsExpertChoice` wrapper never yields
the `alpha` architecture parameter: the iteration returns exactly the
(prefixed) parameters of the wrapped candidate operations, so an optimizer or
clipping call built from the wrapper's own `parameters()` touches only
operation weights. -/
theorem C10_wrapper_parameters_drop_alpha (alphaId : ℕ)
    (ops : List (String × List (String × ℕ))) :
    dartsNamedParameters alphaId ops = flattenOpParams ops
    ∧ dartsParameters alphaId ops = (flattenOpParams ops).map (fun q => q.2)
    ∧ ∀ q ∈ dartsNamedParameters alphaId ops, q.1 ≠ "alpha" := by
  have hfilter : dartsNamedParameters alphaId ops = flattenOpParams ops := by
    unfold dartsNamedParameters superNamedParameters
    rw [List.filter_cons_of_neg (by simp)]
    rw [List.filter_eq_self.mpr]
    intro q hq
    simpa using flattenOpParams_name_ne_alpha ops q hq
  refine ⟨hfilter, ?_, ?_⟩
  · unfold dartsParameters
    rw [hfilter]
  · rw [hfilter]
    exact flattenOpParams_name_ne_alpha ops

/-- Witness for C10 at a concrete wrapper with one candidate holding one
parameter. -/
theorem C10_wrapper_parameters_drop_alpha_witness :
    dartsNamedParameters 0 [("op_a", [("weight", 1)])]
      = flattenOpParams [("op_a", [("weight", 1)])]
    ∧ ("op_choices.op_a.weight", 1).1 ≠ "alpha" :=
  ⟨(C10_wrapper_parameters_drop_alpha 0 [("op_a", [("weight", 1)])]).1,
   (C10_wrapper_parameters_drop_alpha 0 [("op_a", [("weight", 1)])]).2.2
     ("op_choices.op_a.weight", 1) (by decide)⟩

/-! ## Claim C1 -/

/-- The loop of `_compute_virtual_model` leaves the parameter list unchanged:
the computed update value is bound to the Python local `w` and discarded. -/
theorem computeVirtualModel_id (params grads mbuf : Vec) (lr momentum weight_decay : ℝ) :
    computeVirtualModel params grads mbuf lr momentum weight_decay = params := rfl

/-- **C1 (code bug).** The claim (and `_compute_virtual_model`'s own
docstring `Compute unrolled weights w'`) says every parameter tensor is
updated to `w' = w - lr * (momentum * m + g + weight_decay * w)` so that the
validation gradient is taken at the virtual weights.  The code's loop body
`w = w - lr * (...)` rebinds a local name instead of writing into the tensor,
so the parameters are returned unchanged; at the concrete failing input
`w = 1, g = 1, lr = 1/10, momentum = 9/10, m = 0, weight_decay = 0` the code
leaves the parameter at `1` while the documented virtual weight is `9/10`. -/
theorem C1_virtual_step_discarded :
    (∀ params grads mbuf lr momentum weight_decay,
        computeVirtualModel params grads mbuf lr momentum weight_decay = params)
    ∧ computeVirtualModel [1] [1] [0] (1 / 10) (9 / 10) 0 = [1]
    ∧ specVirtualStep [1] [1] [0] (1 / 10) (9 / 10) 0 = [9 / 10]
    ∧ (9 / 10 : ℝ) ≠ 1 := by
  refine ⟨computeVirtualModel_id, rfl, ?_, by norm_num⟩
  unfold specVirtualStep virtualStepValue
  norm_num

/-! ## Claim C5 -/

/-- **C5.** Upon return from `_unrolled_backward`, every live model parameter
holds exactly the value it held on entry (the snapshot restores wipe out the
virtual step — itself a no-op — and both finite-difference perturbations),
and the architecture parameter values are untouched.  The only length
assumption is the trainer invariant that the validation gradient has one
entry per model parameter. -/
theorem C5_unrolled_backward_restores_params (params0 : Vec) (alphas0 : List Vec)
    (mbuf : Vec) (lr momentum weight_decay : ℝ) (gradTrainModel : Vec → Vec)
    (gradVal : Vec → Vec × List Vec) (dalphaTrain : Vec → List Vec)
    (hlen : ((gradVal params0).1).length = params0.length) :
    (unrolledBackward params0 alphas0 mbuf lr momentum weight_decay
        gradTrainModel gradVal dalphaTrain).params = params0
    ∧ (unrolledBackward params0 alphas0 mbuf lr momentum weight_decay
        gradTrainModel gradVal dalphaTrain).alphas = alphas0 := by
  refine ⟨?_, rfl⟩
  unfold unrolledBackward computeHessian
  dsimp only
  rw [computeVirtualModel_id]
  rw [restoreWeights_eq_backup params0 params0 le_rfl]
  apply restoreWeights_eq_backup
  simp [hlen]

/-- Witness for C5 at concrete parameters and gradient oracles. -/
theorem C5_unrolled_backward_restores_params_witness :
    (unrolledBackward [1, 2] [[0]] [0, 0] (1 / 2) (9 / 10) 0
        (fun p => p) (fun p => (p, [p])) (fun p => [p])).params = [1, 2]
    ∧ (unrolledBackward [1, 2] [[0]] [0, 0] (1 / 2) (9 / 10) 0
        (fun p => p) (fun p => (p, [p])) (fun p => [p])).alphas = [[0]] :=
  C5_unrolled_backward_restores_params [1, 2] [[0]] [0, 0] (1 / 2) (9 / 10) 0
    (fun p => p) (fun p => (p, [p])) (fun p => [p]) rfl

/-! ## Claim C4 -/

/-- **C4.** Within one unrolled backward: the Hessian-vector product is
computed by perturbing the (restored) model parameters by `+eps * dw` and
then by `-2 * eps * dw` relative to the first perturbation — i.e. the two
architecture-gradient evaluations happen at `p0 + eps * dw` and
`p0 - eps * dw` — and equals `(grad_pos - grad_neg) / (2 * eps)` with
`eps = 0.01 / ||dw||`; the diagnostic fires exactly when `||dw|| < 1e-8`
while the computation continues; each collected alpha's gradient is then
assigned `d_arch - lr * hessian`, and the alpha values themselves are never
stepped inside the routine. -/
theorem C4_hessian_finite_difference (backup dw current : Vec)
    (dalphaTrain : Vec → List Vec) (params0 : Vec) (alphas0 : List Vec) (mbuf : Vec)
    (lr momentum weight_decay : ℝ) (gradTrainModel : Vec → Vec)
    (gradVal : Vec → Vec × List Vec) :
    ((computeHessian backup dw dalphaTrain current).hessian
      = List.zipWith (fun p n => vecDiv (vecSub p n) (2 * (0.01 / l2norm dw)))
          (dalphaTrain (vecAdd (restoreWeights backup current)
            (vecSmul (0.01 / l2norm dw) dw)))
          (dalphaTrain (vecAdd (restoreWeights backup current)
            (vecSmul (-(0.01 / l2norm dw)) dw))))
    ∧ ((computeHessian backup dw dalphaTrain current).warned ↔ l2norm dw < 1e-8)
    ∧ ((unrolledBackward params0 alphas0 mbuf lr momentum weight_decay
          gradTrainModel gradVal dalphaTrain).alphaGrads
        = List.zipWith (fun d hv => vecSub d (vecSmul lr hv)) ((gradVal params0).2)
            (computeHessian params0 ((gradVal params0).1) dalphaTrain params0).hessian)
    ∧ ((unrolledBackward params0 alphas0 mbuf lr momentum weight_decay
          gradTrainModel gradVal dalphaTrain).alphas = alphas0) := by
  refine ⟨?_, Iff.rfl, ?_, rfl⟩
  · unfold computeHessian
    dsimp only
    rw [vecAdd_vecSmul_vecSmul]
    have harith : (0.01 / l2norm dw) + -2 * (0.01 / l2norm dw)
        = -(0.01 / l2norm dw) := by ring
    rw [harith]
  · unfold unrolledBackward
    dsimp only
    rw [computeVirtualModel_id]

/-! ## Helper lemmas on association-list lookup -/

theorem lookup_nil_none (k : String) :
    (([] : List (String × AlphaRef))).lookup k = none := rfl

theorem lookup_cons_self (k : String) (v : AlphaRef) (l : List (String × AlphaRef)) :
    (((k, v) :: l)).lookup k = some v := by
  simp only [List.lookup]
  rw [show (k == k) = true from beq_self_eq_true k]

theorem lookup_cons_ne (k k' : String) (h : k ≠ k') (v' : AlphaRef)
    (l : List (String × AlphaRef)) :
    (((k', v') :: l)).lookup k = l.lookup k := by
  simp only [List.lookup]
  rw [show (k == k') = false from beq_eq_false_iff_ne.mpr h]

theorem lookup_append_some (l₁ l₂ : List (String × AlphaRef)) (k : String) (v : AlphaRef)
    (h : l₁.lookup k = some v) : (l₁ ++ l₂).lookup k = some v := by
  induction l₁ with
  | nil => rw [lookup_nil_none] at h; exact absurd h (by simp)
  | cons p l ih =>
    rcases p with ⟨k', v'⟩
    by_cases hk : k = k'
    · subst hk
      rw [lookup_cons_self] at h
      rw [List.cons_append, lookup_cons_self]
      exact h
    · rw [lookup_cons_ne k k' hk] at h
      rw [List.cons_append, lookup_cons_ne k k' hk]
      exact ih h

theorem lookup_append_none (l₁ l₂ : List (String × AlphaRef)) (k : String)
    (h : l₁.lookup k = none) : (l₁ ++ l₂).lookup k = l₂.lookup k := by
  induction l₁ with
  | nil => simp
  | cons p l ih =>
    rcases p with ⟨k', v'⟩
    by_cases hk : k = k'
    · subst hk
      rw [lookup_cons_self] at h
      exact absurd h (by simp)
    · rw [lookup_cons_ne k k' hk] at h
      rw [List.cons_append, lookup_cons_ne k k' hk]
      exact ih h

/-! ## Helper lemmas on the `ctrl_params` sharing loop -/

/-- A binding present before the loop survives it unchanged. -/
theorem ctrlLoop_lookup_preserved (ms : List NasModuleR)
    (acc ms' acc' : _) (h : ctrlLoop ms acc = .ok (ms', acc'))
    (k : String) (v : AlphaRef) (hv : acc.lookup k = some v) :
    acc'.lookup k = some v := by
  induction ms generalizing acc ms' acc' with
  | nil =>
    simp [ctrlLoop] at h
    rw [← h.2]
    exact hv
  | cons m ms ih =>
    rcases hm : acc.lookup m.name with _ | a
    · rcases hrec : ctrlLoop ms (acc ++ [(m.name, m.alpha)]) with e | ⟨ms'', acc''⟩
      · simp [ctrlLoop, hm, hrec] at h
      · simp [ctrlLoop, hm, hrec] at h
        exact h.2 ▸ ih _ _ _ hrec (lookup_append_some _ _ _ _ hv)
    · by_cases hsz : m.alpha.size = a.size
      · rcases hrec : ctrlLoop ms acc with e | ⟨ms'', acc''⟩
        · simp [ctrlLoop, hm, hsz, hrec] at h
        · simp [ctrlLoop, hm, hsz, hrec] at h
          exact h.2 ▸ ih _ _ _ hrec hv
      · simp [ctrlLoop, hm, hsz] at h

/-- Every module in the rewritten list is bound in the final dict to exactly
its own (possibly substituted) tensor. -/
theorem ctrlLoop_member_lookup (ms : List NasModuleR)
    (acc ms' acc' : _) (h : ctrlLoop ms acc = .ok (ms', acc')) :
    ∀ m' ∈ ms', acc'.lookup m'.name = some m'.alpha := by
  induction ms generalizing acc ms' acc' with
  | nil =>
    simp [ctrlLoop] at h
    obtain ⟨h1, h2⟩ := h
    subst h1
    intro m' hm'
    exact absurd hm' (by simp)
  | cons m ms ih =>
    rcases hm : acc.lookup m.name with _ | a
    · rcases hrec : ctrlLoop ms (acc ++ [(m.name, m.alpha)]) with e | ⟨ms'', acc''⟩
      · simp [ctrlLoop, hm, hrec] at h
      · simp [ctrlLoop, hm, hrec] at h
        obtain ⟨h1, h2⟩ := h
        subst h1
        subst h2
        intro m' hm'
        rcases List.mem_cons.mp hm' with rfl | htail
        · refine ctrlLoop_lookup_preserved ms _ _ _ hrec m'.name m'.alpha ?_
          rw [lookup_append_none _ _ _ hm]
          exact lookup_cons_self _ _ _
        · exact ih _ _ _ hrec m' htail
    · by_cases hsz : m.alpha.size = a.size
      · rcases hrec : ctrlLoop ms acc with e | ⟨ms'', acc''⟩
        · simp [ctrlLoop, hm, hsz, hrec] at h
        · simp [ctrlLoop, hm, hsz, hrec] at h
          obtain ⟨h1, h2⟩ := h
          subst h1
          subst h2
          intro m' hm'
          rcases List.mem_cons.mp hm' with rfl | htail
          · exact ctrlLoop_lookup_preserved ms _ _ _ hrec _ _ hm
          · exact ih _ _ _ hrec m' htail
      · simp [ctrlLoop, hm, hsz] at h

/-- On a fresh dict, the final dict binds every label to the alpha of the
*first* module of the input carrying that label. -/
theorem ctrlLoop_lookup_first (ms : List NasModuleR)
    (acc ms' acc' : _) (h : ctrlLoop ms acc = .ok (ms', acc'))
    (k : String) (hk : acc.lookup k = none) :
    acc'.lookup k = (ms.find? (fun m0 => m0.name == k)).map (fun m0 => m0.alpha) := by
  induction ms generalizing acc ms' acc' with
  | nil =>
    simp [ctrlLoop] at h
    rw [← h.2]
    simpa using hk
  | cons m ms ih =>
    rcases hm : acc.lookup m.name with _ | a
    · rcases hrec : ctrlLoop ms (acc ++ [(m.name, m.alpha)]) with e | ⟨ms'', acc''⟩
      · simp [ctrlLoop, hm, hrec] at h
      · simp [ctrlLoop, hm, hrec] at h
        obtain ⟨h1, h2⟩ := h
        subst h1
        subst h2
        by_cases hkm : m.name = k
        · subst hkm
          have hfind : (m :: ms).find? (fun m0 => m0.name == m.name) = some m :=
            List.find?_cons_of_pos _ (by simp)
          rw [hfind]
          show List.lookup m.name acc'' = some m.alpha
          refine ctrlLoop_lookup_preserved ms _ _ _ hrec _ _ ?_
          rw [lookup_append_none _ _ _ hm]
          exact lookup_cons_self _ _ _
        · rw [List.find?_cons_of_neg _ (by simpa using hkm)]
          refine ih _ _ _ hrec ?_
          rw [lookup_append_none _ _ _ hk]
          rw [lookup_cons_ne k m.name (fun hh => hkm hh.symm)]
          exact lookup_nil_none k
    · by_cases hsz : m.alpha.size = a.size
      · rcases hrec : ctrlLoop ms acc with e | ⟨ms'', acc''⟩
        · simp [ctrlLoop, hm, hsz, hrec] at h
        · simp [ctrlLoop, hm, hsz, hrec] at h
          obtain ⟨h1, h2⟩ := h
          subst h1
          subst h2
          have hkm : m.name ≠ k := by
            intro hh
            rw [hh, hk] at hm
            exact Option.noConfusion hm
          rw [List.find?_cons_of_neg _ (by simpa using hkm)]
          exact ih _ _ _ hrec hk
      · simp [ctrlLoop, hm, hsz] at h

/-! ## Claim C3 -/

/-- **C3 (counterexample).** Two expert-subset wrappers built with the same
label `"e"` and distinct alpha tensors: the `expert_params` loop never
rebinds the modules (they keep their distinct tensors after trainer
construction), and the tensor handed to the expert optimizer for label `"e"`
is the *last* encountered one — refuting both the identical-tensor invariant
and "only the first encountered alpha tensor per label is optimized" for
expert-subset wrappers. -/
theorem C3_expert_sharing_counterexample :
    (expertConstruct [⟨"e", ⟨0, 4⟩⟩, ⟨"e", ⟨1, 4⟩⟩]).1
        = [⟨"e", ⟨0, 4⟩⟩, ⟨"e", ⟨1, 4⟩⟩]
    ∧ (⟨"e", ⟨0, 4⟩⟩ : NasModuleR).alpha ≠ (⟨"e", ⟨1, 4⟩⟩ : NasModuleR).alpha
    ∧ ((expertConstruct [⟨"e", ⟨0, 4⟩⟩, ⟨"e", ⟨1, 4⟩⟩]).2).lookup "e"
        = some ⟨1, 4⟩ := by
  refine ⟨rfl, by decide, by decide⟩

/-- **C3 (amended).** The weight-sharing invariant holds for operation-level
wrappers only: after the `ctrl_params` loop succeeds, same-labeled modules
reference the same alpha tensor, every optimized tensor is the first
encountered one per label, and a size mismatch between same-labeled alphas
aborts construction.  Expert-subset wrappers are never rebound (each keeps
its own tensor, with no shape check), and the tensor optimized per expert
label is the last encountered one. -/
theorem C3_label_sharing_amended :
    (∀ ms ms' acc', ctrlLoop ms [] = .ok (ms', acc') →
        ∀ a ∈ ms', ∀ b ∈ ms', a.name = b.name → a.alpha = b.alpha)
    ∧ (∀ ms ms' acc', ctrlLoop ms [] = .ok (ms', acc') →
        ∀ k, acc'.lookup k
          = (ms.find? (fun m0 => m0.name == k)).map (fun m0 => m0.alpha))
    ∧ (∀ m1 m2 : NasModuleR, m2.name = m1.name → m2.alpha.size ≠ m1.alpha.size →
        ctrlLoop [m1, m2] []
          = .error "Size of parameters with the same label should be same")
    ∧ (∀ es, (expertConstruct es).1 = es)
    ∧ (∀ e1 e2 : NasModuleR, e1.name = e2.name →
        ((expertConstruct [e1, e2]).2).lookup e1.name = some e2.alpha) := by
  refine ⟨?_, ?_, ?_, fun es => rfl, ?_⟩
  · intro ms ms' acc' h a ha b hb hab
    have h1 := ctrlLoop_member_lookup ms [] ms' acc' h a ha
    have h2 := ctrlLoop_member_lookup ms [] ms' acc' h b hb
    rw [hab] at h1
    exact Option.some_injective _ (h1.symm.trans h2)
  · intro ms ms' acc' h k
    exact ctrlLoop_lookup_first ms [] ms' acc' h k rfl
  · intro m1 m2 hname hsz
    have h2 : ([(m1.name, m1.alpha)]).lookup m2.name = some m1.alpha := by
      rw [hname]
      exact lookup_cons_self _ _ _
    simp [ctrlLoop, lookup_nil_none, h2, hsz]
  · intro e1 e2 hname
    have hstep : (expertConstruct [e1, e2]).2
        = dictInsert (dictInsert [] e1.name e1.alpha) e2.name e2.alpha := rfl
    rw [hstep]
    simp only [dictInsert]
    rw [if_pos hname, hname]
    exact lookup_cons_self _ _ _

/-- Witness for the amended C3: a concrete successful run with a duplicated
operation-level label (both rewritten modules end up on tensor id `0`) and a
concrete size-mismatch abort. -/
theorem C3_label_sharing_amended_witness :
    (∀ a ∈ [(⟨"a", ⟨0, 2⟩⟩ : NasModuleR), ⟨"a", ⟨0, 2⟩⟩],
      ∀ b ∈ [(⟨"a", ⟨0, 2⟩⟩ : NasModuleR), ⟨"a", ⟨0, 2⟩⟩],
        a.name = b.name → a.alpha = b.alpha)
    ∧ ctrlLoop [⟨"a", ⟨0, 2⟩⟩, ⟨"a", ⟨1, 3⟩⟩] []
        = .error "Size of parameters with the same label should be same" := by
  constructor
  · exact C3_label_sharing_amended.1 [⟨"a", ⟨0, 2⟩⟩, ⟨"a", ⟨1, 2⟩⟩]
      [⟨"a", ⟨0, 2⟩⟩, ⟨"a", ⟨0, 2⟩⟩] [("a", ⟨0, 2⟩)] (by rfl)
  · exact C3_label_sharing_amended.2.2.1 ⟨"a", ⟨0, 2⟩⟩ ⟨"a", ⟨1, 3⟩⟩ rfl (by decide)

/-! ## Claim C7 -/

/-- **C7 (counterexample).** A positively infinite combined training loss
passes `_check_nan` untouched (`torch.isnan` is false on infinities), so the
model step proceeds to `backward` and the optimizer steps instead of raising:
the claim that any non-finite loss raises a `ValueError`-class error before
backward is false for infinities. -/
theorem C7_nonfinite_loss_counterexample :
    checkNan LossVal.posInf = .ok ()
    ∧ modelStepTail LossVal.posInf 0 false
        = .ok [StepEvent.backward, StepEvent.optimizerStep]
    ∧ modelStepTail LossVal.negInf 0 false
        = .ok [StepEvent.backward, StepEvent.optimizerStep] := by
  refine ⟨rfl, rfl, rfl⟩

/-- **C7 (amended).** During the model step, if the combined training loss is
NaN, a `ValueError`-class error (`'Training loss is nan.'`) is raised before
`backward` and before any optimizer step (no events are emitted); an infinite
or finite loss raises nothing and the step runs `backward` before the
optimizer steps. -/
theorem C7_nan_loss_amended (epoch_idx : ℕ) (clip : Bool) :
    modelStepTail LossVal.nan epoch_idx clip = .error "Training loss is nan."
    ∧ (∀ loss, loss ≠ LossVal.nan → ∃ events,
        modelStepTail loss epoch_idx clip = .ok events
        ∧ events.head? = some StepEvent.backward) := by
  refine ⟨rfl, ?_⟩
  intro loss hloss
  have hnan : torchIsnan loss = false := by
    cases loss with
    | nan => exact absurd rfl hloss
    | fin x => rfl
    | posInf => rfl
    | negInf => rfl
  refine ⟨[StepEvent.backward]
      ++ (if clip then [StepEvent.clipModelGrads, StepEvent.clipExpertGrads] else [])
      ++ [StepEvent.optimizerStep]
      ++ (if 5 ≤ epoch_idx then [StepEvent.expertOptimizerStep] else []), ?_, ?_⟩
  · simp [modelStepTail, checkNan, hnan]
  · rfl

/-- Witness for the amended C7 at a concrete finite loss past the curriculum
epoch with clipping enabled. -/
theorem C7_nan_loss_amended_witness :
    ∃ events, modelStepTail (LossVal.fin 2) 7 true = .ok events
      ∧ events.head? = some StepEvent.backward :=
  (C7_nan_loss_amended 7 true).2 (LossVal.fin 2) (by intro h; exact LossVal.noConfusion h)

/-! ## Claim C9 -/

/-- **C9.** Constructing a `LayerChoice` while the innermost
fixed-architecture binding maps its label to candidate name `chosen` returns
exactly that candidate module: the selection happens inside construction
(`Mutable.__new__` / `create_fixed_module`, before `__init__` could ever
run), the resulting node's behaviour is the candidate's own forward on every
input, and the only parameters it carries are the candidate's — no sibling
candidate contributes any. -/
theorem C9_fixed_construction_roundtrip (fixedStack : List (List (String × String)))
    (ctx : List (String × String)) (candidates : List (String × PyModule))
    (label chosen : String) (m : PyModule)
    (hstack : fixedStack.head? = some ctx)
    (hctx : ctx.lookup label = some chosen)
    (hcand : candidates.lookup chosen = some m) :
    layerChoiceNew fixedStack candidates label = .ok (.fixedSel m)
    ∧ (∀ x, (BuiltLayerChoice.fixedSel m).run x = m.forward x)
    ∧ (BuiltLayerChoice.fixedSel m).allParams = m.params := by
  refine ⟨?_, fun x => rfl, rfl⟩
  simp only [layerChoiceNew, hstack, hctx, hcand]

/-- Witness for C9: a two-candidate choice under a binding that selects the
second candidate; the built module is that candidate itself and carries only
its parameter. -/
theorem C9_fixed_construction_roundtrip_witness :
    layerChoiceNew [[("l0", "op_b")]]
        [("op_a", ⟨fun x => x + 1, ["a.weight"]⟩),
         ("op_b", ⟨fun x => 2 * x, ["b.weight"]⟩)] "l0"
      = .ok (.fixedSel ⟨fun x => 2 * x, ["b.weight"]⟩)
    ∧ (∀ x, (BuiltLayerChoice.fixedSel
        (⟨fun x => 2 * x, ["b.weight"]⟩ : PyModule)).run x = 2 * x)
    ∧ (BuiltLayerChoice.fixedSel
        (⟨fun x => 2 * x, ["b.weight"]⟩ : PyModule)).allParams = ["b.weight"] :=
  C9_fixed_construction_roundtrip [[("l0", "op_b")]] [("l0", "op_b")]
    [("op_a", ⟨fun x => x + 1, ["a.weight"]⟩), ("op_b", ⟨fun x => 2 * x, ["b.weight"]⟩)]
    "l0" "op_b" ⟨fun x => 2 * x, ["b.weight"]⟩ rfl rfl rfl

/-! ## Helper lemmas for the auxiliary diversity loss -/

theorem sum_map_neg_div (l : List Vec) (n : ℝ) :
    (l.map (fun p => -entropyCode p / n)).sum
      = -((l.map (fun p => entropyCode p / n)).sum) := by
  induction l with
  | nil => simp
  | cons v vs ih =>
    simp only [List.map_cons, List.sum_cons, ih]
    ring

/-- The value `JSDivLoss.forward` returns is exactly the negation of the
spec-worded weighted Jensen–Shannon divergence: the code's `entropy` helper
is `sum of p * log2 p`, the negated Shannon entropy. -/
theorem jsdForward_eq_neg_spec (w : ℝ) (alphas : List Vec) :
    jsdForward w alphas = -specJSDivLoss w alphas := by
  unfold jsdForward specJSDivLoss shannonEntropy
  dsimp only
  rw [sum_map_neg_div]
  ring

theorem JSDivState.stepN_weight_linear (j : ℕ) (s : JSDivState) :
    (JSDivState.stepN j s).weight = s.weight - j * s.weight_step := by
  induction j generalizing s with
  | zero => simp [JSDivState.stepN]
  | succ j ih =>
    rw [JSDivState.stepN, ih]
    simp only [JSDivState.step]
    push_cast
    ring

/-! ## Claim C6 -/

/-- **C6 (counterexample).** At the concrete subset-architecture weights
`[[log 3, 0], [0, log 3]]` (softmax distributions `[3/4, 1/4]` and
`[1/4, 3/4]`) with weight `1`, the value the code returns differs from the
claimed weighted Jensen–Shannon divergence: the code's `entropy` helper is
`sum of p * log2 p` — the *negation* of the Shannon entropy — so the returned
loss is minus the JS divergence, and here the JS divergence
`(3/4) * log2 3 - 1` is nonzero. -/
theorem C6_js_loss_counterexample :
    jsdForward 1 [[Real.log 3, 0], [0, Real.log 3]]
      ≠ specJSDivLoss 1 [[Real.log 3, 0], [0, Real.log 3]] := by
  have hl2pos : 0 < Real.log 2 := Real.log_pos (by norm_num)
  have hl2 : Real.log 2 ≠ 0 := ne_of_gt hl2pos
  have h3 : Real.exp (Real.log 3) = 3 := Real.exp_log (by norm_num)
  have hs1 : softmax [Real.log 3, 0] = [3 / 4, 1 / 4] := by
    simp [softmax, h3, Real.exp_zero]
    norm_num
  have hs2 : softmax [0, Real.log 3] = [1 / 4, 3 / 4] := by
    simp [softmax, h3, Real.exp_zero]
    norm_num
  have hlog4 : Real.log 4 = 2 * Real.log 2 := by
    rw [show (4 : ℝ) = 2 ^ 2 by norm_num, Real.log_pow]
    push_cast
    ring
  have hlog34 : Real.log (3 / 4) = Real.log 3 - 2 * Real.log 2 := by
    rw [Real.log_div (by norm_num) (by norm_num), hlog4]
  have hlog14 : Real.log (1 / 4) = -(2 * Real.log 2) := by
    rw [one_div, Real.log_inv, hlog4]
  have hloghalf : Real.log (1 / 2) = -Real.log 2 := by
    rw [one_div, Real.log_inv]
  have hEhalf : entropyCode [1 / 2, 1 / 2] = -1 := by
    simp only [entropyCode, vecDot, log2r, List.map_cons, List.map_nil,
      List.zipWith_cons_cons, List.zipWith_nil_right, List.sum_cons, List.sum_nil,
      hloghalf]
    field_simp
  have hE34 : entropyCode [3 / 4, 1 / 4]
      = (3 / 4 * Real.log 3 - 2 * Real.log 2) / Real.log 2 := by
    simp only [entropyCode, vecDot, log2r, List.map_cons, List.map_nil,
      List.zipWith_cons_cons, List.zipWith_nil_right, List.sum_cons, List.sum_nil,
      hlog34, hlog14]
    field_simp
    ring
  have hE43 : entropyCode [1 / 4, 3 / 4]
      = (3 / 4 * Real.log 3 - 2 * Real.log 2) / Real.log 2 := by
    simp only [entropyCode, vecDot, log2r, List.map_cons, List.map_nil,
      List.zipWith_cons_cons, List.zipWith_nil_right, List.sum_cons, List.sum_nil,
      hlog34, hlog14]
    field_simp
    ring
  have hspec : specJSDivLoss 1 [[Real.log 3, 0], [0, Real.log 3]]
      = (3 / 4 * Real.log 3 - Real.log 2) / Real.log 2 := by
    unfold specJSDivLoss shannonEntropy
    dsimp only
    rw [List.map_cons, List.map_cons, List.map_nil, hs1, hs2]
    have hmeans : vecDiv (sumVecs [[3 / 4, 1 / 4], [1 / 4, 3 / 4]])
        ((([[Real.log 3, 0], [0, Real.log 3]] : List Vec).length : ℕ) : ℝ)
        = [1 / 2, 1 / 2] := by
      simp [sumVecs, vecAdd, vecDiv]
      norm_num
    rw [hmeans, hEhalf]
    simp only [List.map_cons, List.map_nil, List.sum_cons, List.sum_nil,
      List.length_cons, List.length_nil]
    rw [hE34, hE43]
    push_cast
    field_simp
    ring
  have hval : (3 / 4 * Real.log 3 - Real.log 2) / Real.log 2 ≠ 0 := by
    intro h0
    have hnum : 3 / 4 * Real.log 3 - Real.log 2 = 0 := by
      rcases div_eq_zero_iff.mp h0 with h | h
      · exact h
      · exact absurd h hl2
    have h27 : Real.log 27 = 3 * Real.log 3 := by
      rw [show (27 : ℝ) = 3 ^ 3 by norm_num, Real.log_pow]
      push_cast
      ring
    have h16 : Real.log 16 = 4 * Real.log 2 := by
      rw [show (16 : ℝ) = 2 ^ 4 by norm_num, Real.log_pow]
      push_cast
      ring
    have hlt : Real.log 16 < Real.log 27 := Real.log_lt_log (by norm_num) (by norm_num)
    rw [h16, h27] at hlt
    nlinarith
  rw [jsdForward_eq_neg_spec, hspec]
  intro h
  apply hval
  linarith

/-- **C6 (amended).** For every list of subset-architecture weight tensors,
the auxiliary diversity loss returned equals the *negation* of the weighted
Jensen–Shannon divergence of the per-task softmax distributions (the code's
`entropy` helper computes `sum of p * log2 p`, the negated Shannon entropy,
so minimizing the returned loss maximizes the divergence); the scalar weight
decays linearly — after `j` steps it is `init - j * (init / max_epochs)` —
and reaches exactly zero after `max_epochs = total_epochs - curriculum_epoch`
decay steps. -/
theorem C6_js_loss_amended :
    (∀ w alphas, jsdForward w alphas = -specJSDivLoss w alphas)
    ∧ (∀ init_weight M : ℝ, ∀ j : ℕ,
        ((JSDivState.new init_weight M).stepN j).weight
          = init_weight - j * (init_weight / M))
    ∧ (∀ init_weight : ℝ, ∀ M : ℕ, 0 < M →
        ((JSDivState.new init_weight (M : ℝ)).stepN M).weight = 0) := by
  refine ⟨jsdForward_eq_neg_spec, ?_, ?_⟩
  · intro init_weight M j
    rw [JSDivState.stepN_weight_linear]
    rfl
  · intro init_weight M hM
    rw [JSDivState.stepN_weight_linear]
    have hM0 : (M : ℝ) ≠ 0 := by positivity
    show init_weight - (M : ℝ) * (init_weight / (M : ℝ)) = 0
    field_simp

/-- Witness for the amended C6: the weight hits zero after 3 steps when
constructed with `max_epochs = 3`. -/
theorem C6_js_loss_amended_witness :
    ((JSDivState.new 2 ((3 : ℕ) : ℝ)).stepN 3).weight = 0 :=
  C6_js_loss_amended.2.2 2 3 (by norm_num)

end AutoMTL
